import Mathlib

/-!
# Verification of the chatgpt-exporter concurrent retrieval-and-materialization engine

Shallow embedding of the core engine of the `chatgpt-exporter` repository:

* `src/utils/retry.ts` — the retry/backoff policy (`withRetry`, `calculateDelay`);
* `src/api/client.ts` — the network-call abstraction (`ChatGPTClient.fetch`);
* `src/services/backup-service.ts` — the Backup Engine (`BackupService.backup`);
* `src/services/file-service.ts` — the File Materialization Subsystem
  (`extractFileReferences`, `downloadFiles`);
* `src/cli/commands/backup.ts` — `runFileDownloads` (permanent-failure denylist).

External effects (HTTP responses, the filesystem, `Math.random`, the JS `Date`
parser) are modelled as explicit oracle arguments.  JavaScript numbers are
modelled as `ℚ` (every value the engine manipulates is exact in the code paths
modelled here); `NaN` results of date parsing are modelled as `none` of an
`Option`, which has the same observable skip/no-skip behaviour because every
JS comparison against `NaN` is false.
-/

namespace ChatGPTExporter

/-! ## Error model

JavaScript `Error` objects as used by the engine: `AuthenticationError`,
`RateLimitError` (with optional `retryAfter`), `NetworkError` (with optional
`statusCode`), and arbitrary other errors (e.g. zod validation errors),
distinguished as in the source by their `name` property. -/

structure JsErr where
  name : String
  statusCode : Option Int := none
  retryAfter : Option ℚ := none
  deriving DecidableEq, Repr

/-! ## Retry policy (src/utils/retry.ts) -/

/-- `RetryOptions` from src/utils/retry.ts, with the `defaultOptions` values. -/
structure RetryOptions where
  maxRetries : Nat := 5
  baseDelay : ℚ := 1000
  maxDelay : ℚ := 60000
  deriving DecidableEq, Repr

/-- `calculateDelay` from src/utils/retry.ts.  `jitter` stands for the value
`Math.random() * 0.3 * exponentialDelay` drawn at this attempt. -/
def calculateDelay (attempt : Nat) (baseDelay maxDelay jitter : ℚ) : ℚ :=
  min (baseDelay * 2 ^ attempt + jitter) maxDelay

/-- The non-retryable classification inside `withRetry`
(src/utils/retry.ts lines 37-42): an `AuthenticationError`, or a
`NetworkError` whose `statusCode` is 404. -/
def nonRetryable (e : JsErr) : Bool :=
  e.name == "AuthenticationError" ||
    (e.name == "NetworkError" && e.statusCode == some 404)

/-- Observable trace of one `withRetry` run: the value returned or error
thrown, the number of invocations of the wrapped operation, and the list of
retry events.  One retry event corresponds to one `onRetry?.(lastError,
attempt + 1, delay)` call immediately followed by one `sleep(delay)`; it
records those arguments. -/
structure RetryTrace (α : Type) where
  result : Except JsErr α
  calls : Nat
  events : List (JsErr × Nat × ℚ)
  deriving Repr

/-- The loop body of `withRetry` (src/utils/retry.ts lines 27-50).
`fn attempt` is the outcome of the `attempt`-th invocation of the wrapped
operation, `jitterAt attempt` the jitter drawn for that attempt, and
`remaining = maxRetries - attempt` the number of loop iterations left after
the current one (so `remaining = 0` exactly when `attempt === maxRetries`,
the `break` case of the source). -/
def withRetryGo (fn : Nat → Except JsErr α) (opts : RetryOptions)
    (jitterAt : Nat → ℚ) : Nat → Nat → RetryTrace α
  | attempt, remaining =>
    match fn attempt with
    | .ok v => ⟨.ok v, 1, []⟩
    | .error e =>
      match remaining with
      | 0 => ⟨.error e, 1, []⟩
      | r + 1 =>
        if nonRetryable e then ⟨.error e, 1, []⟩
        else
          let d := calculateDelay attempt opts.baseDelay opts.maxDelay (jitterAt attempt)
          let t := withRetryGo fn opts jitterAt (attempt + 1) r
          ⟨t.result, t.calls + 1, (e, attempt + 1, d) :: t.events⟩

/-- `withRetry` from src/utils/retry.ts: run the loop starting at attempt 0
with `maxRetries` iterations remaining after it. -/
def withRetryTrace (fn : Nat → Except JsErr α) (opts : RetryOptions)
    (jitterAt : Nat → ℚ) : RetryTrace α :=
  withRetryGo fn opts jitterAt 0 opts.maxRetries

/-! ## Network-call abstraction (src/api/client.ts)

An HTTP exchange is modelled by its observable outcome: either a successful
response carrying parsed JSON data (`response.ok`), or a failed response with
its status code and optional `retry-after` header. -/

inductive FetchResponse (δ : Type) where
  | ok (data : δ)
  | httpErr (status : Int) (retryAfterHeader : Option Int)
  deriving Repr

/-- The body of the closure `ChatGPTClient.fetch` passes to `withRetry`
(src/api/client.ts lines 88-116): map the HTTP outcome of the `attempt`-th
request to a value or a thrown error.  `parse` models
`parseResponse ? parseResponse(data) : data` (so `Except.ok` when no
`parseResponse` is supplied); a validation error thrown by `parseResponse`
is an `Except.error` of `parse`. -/
def clientFetchFn (responses : Nat → FetchResponse δ)
    (parse : δ → Except JsErr α) : Nat → Except JsErr α :=
  fun attempt =>
    match responses attempt with
    | .httpErr s ra =>
      if s = 401 ∨ s = 403 then .error ⟨"AuthenticationError", none, none⟩
      else if s = 429 then
        .error ⟨"RateLimitError", none, ra.map (fun n => (n * 1000 : ℚ))⟩
      else .error ⟨"NetworkError", some s, none⟩
    | .ok d => parse d

/-- `ChatGPTClient.fetch` (src/api/client.ts lines 73-125): after the
`!this.accessToken` guard, run the request closure under `withRetry` with the
default options (`maxRetries = 5`; only `onRetry` is overridden). -/
def clientFetch (accessToken : String) (responses : Nat → FetchResponse δ)
    (parse : δ → Except JsErr α) (jitterAt : Nat → ℚ) : RetryTrace α :=
  if accessToken = "" then
    ⟨.error ⟨"AuthenticationError", none, none⟩, 0, []⟩
  else withRetryTrace (clientFetchFn responses parse) {} jitterAt

/-- The reduced retry budget used by both file-download steps:
`{ maxRetries: 1 }` merged over the default options. -/
def reducedRetryOptions : RetryOptions := ⟨1, 1000, 60000⟩

/-- Modelled from the spec: `ChatGPTClient.fetch` as present in
src/api/client.ts ignores the `retryOptions: { maxRetries: 1 }` argument that
`downloadFiles.processOne` (src/services/file-service.ts lines 217-219)
passes, and the `ChatGPTClient.fetchRaw` method called at line 226 is absent
from src altogether — the client version matching the file-download feature
is missing.  Per the spec (§4.5, Step 1): the resolve step fetches download
metadata under the retry policy with a reduced budget of 1 retry. -/
def fileResolveTrace (responses : Nat → FetchResponse δ)
    (parse : δ → Except JsErr α) (jitterAt : Nat → ℚ) : RetryTrace α :=
  withRetryTrace (clientFetchFn responses parse) reducedRetryOptions jitterAt

/-- Modelled from the spec: `ChatGPTClient.fetchRaw` is absent from src (see
`fileResolveTrace`).  Per the spec (§4.5, Step 2): the raw-bytes fetch runs
under the retry policy with a reduced budget of 1 retry and yields the bytes
unparsed. -/
def fileFetchRawTrace (responses : Nat → FetchResponse δ)
    (jitterAt : Nat → ℚ) : RetryTrace δ :=
  withRetryTrace (clientFetchFn responses Except.ok) reducedRetryOptions jitterAt

/-! ## File reference extraction (src/services/file-service.ts lines 34-100)

The message graph is modelled by the fields `extractFileReferences` actually
reads: for each mapping node (in `Object.values` insertion order) the optional
message, its `content.parts`, and its metadata `attachments` and `citations`
lists.  JS `undefined`/`null`/non-array values are `none`; a JS string field
that may be absent is an `Option String` (where `some ""` is the empty string,
which every truthiness test in the source treats like an absent value). -/

/-- One entry of `message.content.parts`: a plain string, a non-object value
(`null` etc.), or an object with the two fields the extractor reads. -/
inductive MsgPart where
  | text (s : String)
  | nullish
  | obj (content_type : Option String) (asset_pointer : Option String)
  deriving DecidableEq, Repr

structure Attachment where
  id : Option String
  name : Option String
  deriving DecidableEq, Repr

structure CitationMetadata where
  file_id : Option String
  title : Option String
  deriving DecidableEq, Repr

structure Citation where
  metadata : Option CitationMetadata
  file_id : Option String
  title : Option String
  deriving DecidableEq, Repr

structure MsgContent where
  parts : Option (List MsgPart)
  deriving DecidableEq, Repr

structure MsgMetadata where
  attachments : Option (List Attachment)
  citations : Option (List Citation)
  deriving DecidableEq, Repr

structure Message where
  content : Option MsgContent := none
  metadata : Option MsgMetadata := none
  deriving DecidableEq, Repr

structure MappingNode where
  message : Option Message
  deriving DecidableEq, Repr

/-- The extraction-relevant view of a `ConversationDetail`: its mapping
nodes, listed in `Object.values(detail.mapping)` insertion order (keys,
parent/child links and the remaining fields are not read by the extractor). -/
structure ConversationDetail where
  mapping : List MappingNode
  deriving DecidableEq, Repr

/-- The three provenance mechanisms, as the `source` string literals of
src/services/file-service.ts. -/
inductive FileSource where
  | image_asset_pointer
  | attachment
  | citation
  deriving DecidableEq, Repr

/-- `FileReference` from src/api/types.ts as constructed by the extractor. -/
structure FileReference where
  fileId : String
  filename : Option String := none
  source : FileSource
  deriving DecidableEq, Repr

/-- The `file-service://` scheme constant `FILE_SERVICE_PREFIX`. -/
def fileServiceScheme : String := "file-service://"

/-- JS `s.startsWith(pre)`, modelled on the character sequences (the scheme
is ASCII, so JS UTF-16 code units and characters coincide). -/
def strStartsWith (s pre : String) : Bool := pre.data.isPrefixOf s.data

/-- JS `s.slice(n)`, modelled on the character sequences. -/
def strSlice (s : String) (n : Nat) : String := ⟨s.data.drop n⟩

/-- `extractFileIdFromPointer` (src/services/file-service.ts lines 36-39):
`pointer.startsWith(FILE_SERVICE_PREFIX)` guarding
`pointer.slice(FILE_SERVICE_PREFIX.length)` (JS `.length` of an ASCII string
is its character count). -/
def extractFileIdFromPointer (pointer : String) : Option String :=
  if strStartsWith pointer fileServiceScheme then
    some (strSlice pointer fileServiceScheme.data.length)
  else none

/-- The image-pointer scan for one content part (first block of the node
loop, lines 49-64): an object part whose `content_type` is
`'image_asset_pointer'`, with a truthy `asset_pointer` yielding a truthy
file id. -/
def imageCandidate (part : MsgPart) : Option FileReference :=
  match part with
  | .text _ => none
  | .nullish => none
  | .obj ct ptr =>
    if ct = some "image_asset_pointer" then
      match ptr with
      | some p =>
        if p ≠ "" then
          match extractFileIdFromPointer p with
          | some fid =>
            if fid ≠ "" then some ⟨fid, none, .image_asset_pointer⟩ else none
          | none => none
        else none
      | none => none
    else none

/-- The attachments scan for one entry (lines 68-80): a truthy `id`, with
`name` as optional display name. -/
def attachmentCandidate (a : Attachment) : Option FileReference :=
  match a.id with
  | some id => if id ≠ "" then some ⟨id, a.name, .attachment⟩ else none
  | none => none

/-- The citations scan for one entry (lines 83-96): file id from
`metadata.file_id ?? file_id`, title from `metadata.title ?? title`. -/
def citationCandidate (c : Citation) : Option FileReference :=
  match (match c.metadata with | some m => m.file_id | none => none) <|> c.file_id with
  | some fid =>
    if fid ≠ "" then
      some ⟨fid, (match c.metadata with | some m => m.title | none => none) <|> c.title, .citation⟩
    else none
  | none => none

/-- `refs.set(fileId, ...)` guarded by `!refs.has(fileId)`: a JS `Map`
keeps first-insertion order, so the map is a list of references with
insert-if-absent keyed by `fileId`. -/
def insertRef (refs : List FileReference) (r : FileReference) : List FileReference :=
  if refs.any (fun q => decide (q.fileId = r.fileId)) then refs else refs ++ [r]

/-- All candidate references produced by one message, in scan order:
image pointers from `content.parts`, then `metadata.attachments`, then
`metadata.citations`. -/
def messageCandidates (msg : Message) : List FileReference :=
  (match msg.content with
    | some c => (c.parts.getD []).filterMap imageCandidate
    | none => [])
  ++ (match msg.metadata with
    | some md => (md.attachments.getD []).filterMap attachmentCandidate
    | none => [])
  ++ (match msg.metadata with
    | some md => (md.citations.getD []).filterMap citationCandidate
    | none => [])

def nodeCandidates (n : MappingNode) : List FileReference :=
  match n.message with
  | some m => messageCandidates m
  | none => []

/-- All candidate occurrences in a conversation, in scan order (before
deduplication). -/
def extractCandidates (d : ConversationDetail) : List FileReference :=
  d.mapping.flatMap nodeCandidates

/-- The three scans of one node, threading the deduplicating map. -/
def scanNode (refs : List FileReference) (n : MappingNode) : List FileReference :=
  match n.message with
  | none => refs
  | some msg =>
    let refs1 := (match msg.content with
      | some c => (c.parts.getD []).foldl
          (fun acc p => match imageCandidate p with
            | some r => insertRef acc r
            | none => acc) refs
      | none => refs)
    let refs2 := (match msg.metadata with
      | some md => (md.attachments.getD []).foldl
          (fun acc a => match attachmentCandidate a with
            | some r => insertRef acc r
            | none => acc) refs1
      | none => refs1)
    (match msg.metadata with
      | some md => (md.citations.getD []).foldl
          (fun acc c => match citationCandidate c with
            | some r => insertRef acc r
            | none => acc) refs2
      | none => refs2)

/-- `extractFileReferences` (src/services/file-service.ts lines 41-100):
scan every node, first occurrence of a `fileId` wins,
`Array.from(refs.values())` returns insertion order. -/
def extractFileReferences (d : ConversationDetail) : List FileReference :=
  d.mapping.foldl scanNode []

/-! ## Backup Engine (src/services/backup-service.ts)

`BackupService.backup` is modelled around its two phases: the incremental
pre-pass that splits the listed conversations into skipped ones and the
download queue (lines 128-145), and the bounded-concurrency download loop
(lines 147-187).  The storage lookup `getExistingConversationUpdateTime`
(src/services/storage-service.ts lines 270-279, `update_time ?? null` of the
stored JSON, `null` on any read failure) is the oracle `localTime`; the
outcome of `downloadConversation` + `saveConversation` for one id is the
oracle `fetchOk`.  The loop completes every queued item exactly once and
increments exactly one of `downloaded`/`failed` per item, so the counters
are modelled by a fold over the queue in submission order (the concurrent
interleaving only permutes per-item completions). -/

/-- A conversation summary's `update_time` JSON value: a number, a date
string, or absent/null (`none`). -/
inductive TimeVal where
  | num (t : ℚ)
  | str (s : String)
  deriving DecidableEq, Repr

/-- The extraction-relevant fields of a listed `ConversationItem`; the
remaining fields are not read by the modelled logic. -/
structure ConversationItem where
  id : String
  update_time : Option TimeVal
  deriving DecidableEq, Repr

/-- The remote-timestamp normalization of `BackupService.backup`
(lines 131-135): a numeric `update_time` is used as-is (epoch seconds),  a
truthy string is parsed with `new Date(s).getTime() / 1000`, and a falsy
value (`null`, `undefined`, `""`) gives `null`.  `dateParseMs` models the JS
date parser in epoch milliseconds, `none` standing for `NaN` (every
comparison against `NaN` is false, matching `none` never satisfying the skip
condition). -/
def convUpdateTime (dateParseMs : String → Option ℚ) : Option TimeVal → Option ℚ
  | some (.num t) => some t
  | some (.str s) => if s = "" then none else (dateParseMs s).map (· / 1000)
  | none => none

/-- The incremental skip test (line 137):
`existingUpdateTime !== null && convUpdateTime !== null &&
existingUpdateTime >= convUpdateTime`. -/
def incrementalSkip (dateParseMs : String → Option ℚ)
    (localTime : String → Option ℚ) (c : ConversationItem) : Bool :=
  match localTime c.id, convUpdateTime dateParseMs c.update_time with
  | some ex, some cu => decide (ex ≥ cu)
  | _, _ => false

/-- The pre-pass over the listed conversations (lines 128-145), processed in
listing order: `(skipped, toDownload)`.  A conversation is counted as
skipped when `incremental` holds and the skip test passes, otherwise pushed
onto the download queue. -/
def backupPrepass (dateParseMs localTime : String → Option ℚ) (incremental : Bool) :
    List ConversationItem → Nat × List ConversationItem
  | [] => (0, [])
  | c :: cs =>
    let rest := backupPrepass dateParseMs localTime incremental cs
    if incremental && incrementalSkip dateParseMs localTime c then (rest.1 + 1, rest.2)
    else (rest.1, c :: rest.2)

/-- The download loop over the queue (lines 147-187): each queued item runs
`processOne` (lines 150-169) exactly once, a success incrementing
`downloaded`, a failure incrementing `failed` and recording the conversation
id; `(downloaded, failed, failed ids)`. -/
def backupDownloadLoop (fetchOk : String → Bool) :
    List ConversationItem → Nat × Nat × List String
  | [] => (0, 0, [])
  | c :: cs =>
    let rest := backupDownloadLoop fetchOk cs
    if fetchOk c.id then (rest.1 + 1, rest.2.1, rest.2.2)
    else (rest.1, rest.2.1 + 1, c.id :: rest.2.2)

/-- `BackupResult` (src/services/backup-service.ts lines 24-30); `errors`
keeps the failed conversation ids. -/
structure BackupResult where
  totalConversations : Nat
  downloaded : Nat
  skipped : Nat
  failed : Nat
  errors : List String
  deriving DecidableEq, Repr

/-- `BackupService.backup` (lines 100-207): list → incremental pre-pass →
download loop → result, with `totalConversations = conversations.length`. -/
def backupRun (dateParseMs localTime : String → Option ℚ) (incremental : Bool)
    (fetchOk : String → Bool) (convs : List ConversationItem) : BackupResult :=
  let pre := backupPrepass dateParseMs localTime incremental convs
  let loop := backupDownloadLoop fetchOk pre.2
  { totalConversations := convs.length
    downloaded := loop.1
    skipped := pre.1
    failed := loop.2.1
    errors := loop.2.2 }

/-! ## File Materialization (src/services/file-service.ts lines 176-267 and
src/cli/commands/backup.ts lines 312-362)

Oracles: `alreadyLocal fileId` models `dirHasFiles(path.join(filesDir,
fileId))`, and `fetchOk fileId` models the success of the whole try-block of
`processOne` (resolve metadata with a usable `download_url`, fetch the bytes,
write the file).  As in the backup loop, each reference completes exactly
once and moves exactly one counter, so the result is a fold over the batch
in submission order. -/

/-- `FileDownloadResult` (src/services/file-service.ts lines 26-32). -/
structure FileDownloadResult where
  downloaded : Nat
  skipped : Nat
  failed : Nat
  total : Nat
  failedFileIds : List String
  deriving DecidableEq, Repr

/-- Per-reference completions of `processOne` (lines 205-246) over the
batch in submission order: skip when a local file already exists, otherwise
download with success or failure (failures push the file id);
`(downloaded, skipped, failed, failed ids)`. -/
def fileLoopCounts (alreadyLocal fetchOk : String → Bool) :
    List FileReference → Nat × Nat × Nat × List String
  | [] => (0, 0, 0, [])
  | r :: rs =>
    let rest := fileLoopCounts alreadyLocal fetchOk rs
    if alreadyLocal r.fileId then (rest.1, rest.2.1 + 1, rest.2.2.1, rest.2.2.2)
    else if fetchOk r.fileId then (rest.1 + 1, rest.2.1, rest.2.2.1, rest.2.2.2)
    else (rest.1, rest.2.1, rest.2.2.1 + 1, r.fileId :: rest.2.2.2)

/-- The scheduling loop of `downloadFiles` over the already-filtered batch
(lines 191-266), with `total = refs.length` in the returned result. -/
def downloadFilesLoop (alreadyLocal fetchOk : String → Bool)
    (refs : List FileReference) : FileDownloadResult :=
  let st := fileLoopCounts alreadyLocal fetchOk refs
  { downloaded := st.1
    skipped := st.2.1
    failed := st.2.2.1
    total := refs.length
    failedFileIds := st.2.2.2 }

/-- `downloadFiles` (lines 176-267): filter out previously failed file ids
(`skipFileIds && skipFileIds.size > 0`, lines 187-189) before any work is
scheduled, then run the loop over the remaining references. -/
def downloadFiles (alreadyLocal fetchOk : String → Bool)
    (allRefs : List FileReference) (skipFileIds : List String) : FileDownloadResult :=
  let refs := if skipFileIds.isEmpty then allRefs
    else allRefs.filter (fun r => !decide (r.fileId ∈ skipFileIds))
  downloadFilesLoop alreadyLocal fetchOk refs

/-- The `skippedKnown` count reported once at batch start by
`runFileDownloads` (src/cli/commands/backup.ts lines 321-323):
`skipFileIds.size > 0 ? refs.filter(r => skipFileIds.has(r.fileId)).length : 0`. -/
def excludedCountReported (allRefs : List FileReference)
    (skipFileIds : List String) : Nat :=
  if skipFileIds.isEmpty then 0
  else (allRefs.filter (fun r => decide (r.fileId ∈ skipFileIds))).length

/-! ## Download Orchestrator scheduling loop (src/services/backup-service.ts
lines 171-187 and src/services/file-service.ts lines 248-264)

Both loops are the same pattern over their item type: an outer loop while
the queue or the in-flight set is nonempty; an inner loop that dequeues and
starts a worker only while `inProgress.size < concurrency`; and a
`Promise.race(inProgress)` wait.  Under the single-threaded cooperative
model, the observable states are captured by the pending queue and the
number of in-flight workers, and the loop's behaviour by two transitions: a
start (guarded by the inner-loop condition) and the completion of one
in-flight worker (possible at every `await`).  The relation
over-approximates the scheduler, so its reachable states include every
observable instant of a run. -/

structure OrchState (α : Type) where
  pending : List α
  inFlight : Nat
  deriving Repr

/-- One observable transition of the scheduling loop with concurrency limit
`limit`. -/
inductive OrchStep (limit : Nat) : OrchState α → OrchState α → Prop where
  | start {s : OrchState α} {x : α} {rest : List α} :
      s.inFlight < limit → s.pending = x :: rest →
      OrchStep limit s ⟨rest, s.inFlight + 1⟩
  | finish {s : OrchState α} :
      0 < s.inFlight →
      OrchStep limit s ⟨s.pending, s.inFlight - 1⟩

/-- A run starts with the whole batch queued and nothing in flight. -/
def orchInit (items : List α) : OrchState α := ⟨items, 0⟩

/-! ## Concrete fixtures used by the witness theorems -/

/-- An attachment entry and a citation entry carrying the same file id with
different filenames. -/
def demoMessage : Message :=
  { content := none
    metadata := some
      { attachments := some [⟨some "file-AAA", some "report.pdf"⟩]
        citations := some [⟨some ⟨some "file-AAA", some "Report title"⟩, none, none⟩] } }

def demoDetail : ConversationDetail := ⟨[⟨some demoMessage⟩]⟩

def demoDateParse : String → Option ℚ :=
  fun s => if s = "1970-01-01T00:01:40.000Z" then some 100000 else none

def demoLocalTime : String → Option ℚ := fun _ => some 100

def demoConv : ConversationItem :=
  ⟨"c1", some (.str "1970-01-01T00:01:40.000Z")⟩

def demoRefs : List FileReference :=
  [⟨"file-good", none, .attachment⟩, ⟨"file-bad", none, .citation⟩]

def demoFetchOk : String → Bool := fun i => decide (i = "file-good")

def demoAuthErr : JsErr := ⟨"AuthenticationError", none, none⟩

def demoRateLimitErr : JsErr := ⟨"RateLimitError", none, none⟩

def demoValidationErr : JsErr := ⟨"ZodError", none, none⟩

/-- An operation that fails with an authentication rejection on every
invocation. -/
def demoFailAuth : Nat → Except JsErr Unit := fun _ => .error demoAuthErr

/-- An operation that fails with a rate-limit error on every invocation. -/
def demoFailRate : Nat → Except JsErr Unit := fun _ => .error demoRateLimitErr

/-- Every request succeeds at the HTTP level. -/
def demoOkResponses : Nat → FetchResponse Unit := fun _ => .ok ()

/-- A `parseResponse` validator that always throws a validation error. -/
def demoParseFail : Unit → Except JsErr Unit := fun _ => .error demoValidationErr

/-- Every request fails with HTTP 500. -/
def demoErr500Responses : Nat → FetchResponse Unit := fun _ => .httpErr 500 none

theorem withRetryGo_calls_le (fn : Nat → Except JsErr α) (opts : RetryOptions)
    (jitterAt : Nat → ℚ) (attempt remaining : Nat) :
    (withRetryGo fn opts jitterAt attempt remaining).calls ≤ remaining + 1 := by
  induction remaining generalizing attempt with
  | zero =>
    rw [withRetryGo]
    cases fn attempt <;> simp
  | succ r ih =>
    rw [withRetryGo]
    cases fn attempt with
    | ok v => simp
    | error e =>
      by_cases he : nonRetryable e
      · simp [he]
      · simpa [he] using ih (attempt + 1)

theorem withRetryGo_zero_calls (fn : Nat → Except JsErr α) (opts : RetryOptions)
    (jitterAt : Nat → ℚ) (attempt : Nat) :
    (withRetryGo fn opts jitterAt attempt 0).calls = 1 := by
  rw [withRetryGo]
  cases fn attempt <;> simp

/-- If every invocation from `attempt` on fails with a retryable error, the
loop performs all remaining iterations and propagates the error of the last
one. -/
theorem withRetryGo_allFail (fn : Nat → Except JsErr α) (opts : RetryOptions)
    (jitterAt : Nat → ℚ) (errOf : Nat → JsErr)
    (herr : ∀ i, fn i = .error (errOf i))
    (hret : ∀ i, nonRetryable (errOf i) = false) :
    ∀ remaining attempt,
      (withRetryGo fn opts jitterAt attempt remaining).result
          = .error (errOf (attempt + remaining))
        ∧ (withRetryGo fn opts jitterAt attempt remaining).calls = remaining + 1
        ∧ (withRetryGo fn opts jitterAt attempt remaining).events.length = remaining := by
  intro remaining
  induction remaining with
  | zero =>
    intro attempt
    rw [withRetryGo, herr attempt]
    simp
  | succ r ih =>
    intro attempt
    rw [withRetryGo, herr attempt]
    simp only [hret attempt, Bool.false_eq_true, if_false]
    have h := ih (attempt + 1)
    have harith : attempt + 1 + r = attempt + (r + 1) := by omega
    rw [harith] at h
    exact ⟨by simp [h.1], by simp [h.2.1], by simp [h.2.2]⟩

/-- If attempts `attempt, …, attempt + k - 1` fail with retryable errors and
attempt `attempt + k` (still within budget) fails with a non-retryable error,
the loop stops at attempt `attempt + k` with that error, having invoked the
operation `k + 1` times and produced only the `k` earlier retry events. -/
theorem withRetryGo_nonRetryable_reach (fn : Nat → Except JsErr α)
    (opts : RetryOptions) (jitterAt : Nat → ℚ) (e : JsErr) :
    ∀ k attempt remaining, k ≤ remaining →
      (∀ i, i < k → ∃ e', fn (attempt + i) = .error e' ∧ nonRetryable e' = false) →
      fn (attempt + k) = .error e → nonRetryable e = true →
      (withRetryGo fn opts jitterAt attempt remaining).result = .error e
        ∧ (withRetryGo fn opts jitterAt attempt remaining).calls = k + 1
        ∧ (withRetryGo fn opts jitterAt attempt remaining).events.length = k := by
  intro k
  induction k with
  | zero =>
    intro attempt remaining _ _ hfail hnr
    rw [Nat.add_zero] at hfail
    match remaining with
    | 0 => rw [withRetryGo, hfail]; simp
    | r + 1 => rw [withRetryGo, hfail]; simp [hnr]
  | succ k ih =>
    intro attempt remaining hk hpre hfail hnr
    match remaining with
    | 0 => omega
    | r + 1 =>
      obtain ⟨e0, he0, hr0⟩ := hpre 0 (Nat.succ_pos k)
      rw [Nat.add_zero] at he0
      rw [withRetryGo, he0]
      simp only [hr0, Bool.false_eq_true, if_false]
      have hpre' : ∀ i, i < k →
          ∃ e', fn (attempt + 1 + i) = .error e' ∧ nonRetryable e' = false := by
        intro i hi
        obtain ⟨e', h1, h2⟩ := hpre (i + 1) (by omega)
        refine ⟨e', ?_, h2⟩
        have harith : attempt + 1 + i = attempt + (i + 1) := by omega
        rw [harith]; exact h1
      have hfail' : fn (attempt + 1 + k) = .error e := by
        have harith : attempt + 1 + k = attempt + (k + 1) := by omega
        rw [harith]; exact hfail
      have h := ih (attempt + 1) r (by omega) hpre' hfail' hnr
      exact ⟨by simp [h.1], by simp [h.2.1], by simp [h.2.2]⟩

/-- **C4.** For every attempt index `k` at which the wrapped operation fails
with a non-retryable failure (an authentication rejection, or a 404
"not found" network failure) — all earlier attempts having failed retryably —
`withRetry` re-throws that error immediately: the operation is invoked
exactly `k + 1` times (never again after attempt `k`), and only the `k`
earlier attempts produced a retry event (delay computation, observer call,
sleep), none for attempt `k`. -/
theorem claim_c4_nonretryable_immediate (fn : Nat → Except JsErr α)
    (opts : RetryOptions) (jitterAt : Nat → ℚ) (k : Nat) (e : JsErr)
    (hpre : ∀ i, i < k → ∃ e', fn i = .error e' ∧ nonRetryable e' = false)
    (hk : k ≤ opts.maxRetries)
    (hfail : fn k = .error e) (hnr : nonRetryable e = true) :
    (withRetryTrace fn opts jitterAt).result = .error e
      ∧ (withRetryTrace fn opts jitterAt).calls = k + 1
      ∧ (withRetryTrace fn opts jitterAt).events.length = k := by
  rw [withRetryTrace]
  refine withRetryGo_nonRetryable_reach fn opts jitterAt e k 0 opts.maxRetries hk ?_ ?_ hnr
  · intro i hi
    simpa using hpre i hi
  · simpa using hfail

theorem claim_c4_witness :
    (withRetryTrace demoFailAuth ⟨5, 1000, 60000⟩ (fun _ => 0)).result
        = .error demoAuthErr
      ∧ (withRetryTrace demoFailAuth ⟨5, 1000, 60000⟩ (fun _ => 0)).calls = 1
      ∧ (withRetryTrace demoFailAuth ⟨5, 1000, 60000⟩ (fun _ => 0)).events.length = 0 :=
  claim_c4_nonretryable_immediate demoFailAuth ⟨5, 1000, 60000⟩ (fun _ => 0)
    0 demoAuthErr (fun i hi => absurd hi (by omega)) (by decide) rfl (by decide)

/-- **C5 counterexample.** The claim says an operation failing retryably on
every invocation is invoked `maxRetries` times in total.  With
`maxRetries = 1` and every invocation failing with a rate-limit error, the
loop (attempts 0 and 1) invokes the operation twice, not once. -/
theorem claim_c5_counterexample :
    ¬ ((withRetryTrace demoFailRate ⟨1, 1000, 60000⟩ (fun _ => 0)).calls = 1) := by
  decide

/-- **C5 (amended).** For every operation that fails with a retryable error
on every invocation, `withRetry` invokes the operation `maxRetries + 1`
times in total (attempts `0` through `maxRetries`) and then propagates the
error from the last failed attempt. -/
theorem claim_c5_amended (fn : Nat → Except JsErr α) (opts : RetryOptions)
    (jitterAt : Nat → ℚ) (errOf : Nat → JsErr)
    (herr : ∀ i, fn i = .error (errOf i))
    (hret : ∀ i, nonRetryable (errOf i) = false) :
    (withRetryTrace fn opts jitterAt).calls = opts.maxRetries + 1
      ∧ (withRetryTrace fn opts jitterAt).result = .error (errOf opts.maxRetries) := by
  rw [withRetryTrace]
  have h := withRetryGo_allFail fn opts jitterAt errOf herr hret opts.maxRetries 0
  rw [Nat.zero_add] at h
  exact ⟨h.2.1, h.1⟩

theorem claim_c5_witness :
    (withRetryTrace demoFailRate ⟨2, 1000, 60000⟩ (fun _ => 0)).calls = 3
      ∧ (withRetryTrace demoFailRate ⟨2, 1000, 60000⟩ (fun _ => 0)).result
        = .error demoRateLimitErr :=
  claim_c5_amended demoFailRate ⟨2, 1000, 60000⟩ (fun _ => 0)
    (fun _ => demoRateLimitErr) (fun _ => rfl) (fun _ => rfl)

/-- **C6 counterexample.** The claim says a response-shape validation
failure is never retried, `client.fetch` propagating it without re-invoking
the request.  With every request returning a well-formed HTTP 200 response
and `parseResponse` always throwing a validation error (name `ZodError`,
which matches neither non-retryable pattern of `withRetry`), `client.fetch`
invokes the request 6 times (attempts 0 through the default
`maxRetries = 5`), not once. -/
theorem claim_c6_counterexample :
    ¬ ((clientFetch "token" demoOkResponses demoParseFail (fun _ => 0)).calls = 1) := by
  decide

/-- **C6 (amended).** A response-shape validation failure (the
`parseResponse` validator throwing on a successfully received response) is
classified retryable by `withRetry` (its error name matches neither
`AuthenticationError` nor `NetworkError` with status 404), so
`client.fetch` re-invokes the request after every validation failure until
the default budget is exhausted — 6 invocations in total — and only then
propagates the validation error. -/
theorem claim_c6_amended (tok : String) (responses : Nat → FetchResponse δ)
    (dat : Nat → δ) (parse : δ → Except JsErr α) (jitterAt : Nat → ℚ)
    (vErr : JsErr) (htok : tok ≠ "")
    (hresp : ∀ n, responses n = .ok (dat n))
    (hparse : ∀ d, parse d = .error vErr)
    (hnr : nonRetryable vErr = false) :
    (clientFetch tok responses parse jitterAt).calls = 6
      ∧ (clientFetch tok responses parse jitterAt).result = .error vErr := by
  rw [clientFetch, if_neg htok, withRetryTrace]
  have herr : ∀ i, clientFetchFn responses parse i = .error vErr := by
    intro i
    rw [clientFetchFn]
    simp only [hresp i]
    exact hparse (dat i)
  have h := withRetryGo_allFail (clientFetchFn responses parse) {} jitterAt
    (fun _ => vErr) herr (fun _ => hnr) ({} : RetryOptions).maxRetries 0
  exact ⟨h.2.1, h.1⟩

theorem claim_c6_witness :
    (clientFetch "tok" demoOkResponses demoParseFail (fun _ => 0)).calls = 6
      ∧ (clientFetch "tok" demoOkResponses demoParseFail (fun _ => 0)).result
        = .error demoValidationErr :=
  claim_c6_amended "tok" demoOkResponses (fun _ => ()) demoParseFail
    (fun _ => 0) demoValidationErr (by decide) (fun _ => rfl) (fun _ => rfl)
    (by decide)

/-- **C9.** Each of the two file-download steps (step 1: resolve the
download metadata; step 2: fetch the raw bytes) runs with a retry budget of
exactly 1 retry: the underlying network call is invoked at most twice per
step, and when the first invocation fails with a retryable error the one
retry is actually taken (exactly two invocations) before the error
propagates to `processOne`'s catch block, which records the item as failed. -/
theorem claim_c9_reduced_budget (responses : Nat → FetchResponse δ)
    (parse : δ → Except JsErr α) (responses2 : Nat → FetchResponse β)
    (jitterAt jitterAt2 : Nat → ℚ) :
    (fileResolveTrace responses parse jitterAt).calls ≤ 2
      ∧ (fileFetchRawTrace responses2 jitterAt2).calls ≤ 2
      ∧ (∀ e, clientFetchFn responses parse 0 = .error e →
          nonRetryable e = false →
          (fileResolveTrace responses parse jitterAt).calls = 2)
      ∧ (∀ e, clientFetchFn responses2 Except.ok 0 = .error e →
          nonRetryable e = false →
          (fileFetchRawTrace responses2 jitterAt2).calls = 2) := by
  refine ⟨?_, ?_, ?_, ?_⟩
  · exact withRetryGo_calls_le _ _ _ 0 1
  · exact withRetryGo_calls_le _ _ _ 0 1
  · intro e he hnr
    rw [fileResolveTrace, withRetryTrace]
    show (withRetryGo _ _ _ 0 1).calls = 2
    rw [withRetryGo, he]
    simp [hnr, withRetryGo_zero_calls]
  · intro e he hnr
    rw [fileFetchRawTrace, withRetryTrace]
    show (withRetryGo _ _ _ 0 1).calls = 2
    rw [withRetryGo, he]
    simp [hnr, withRetryGo_zero_calls]

theorem claim_c9_witness :
    (fileResolveTrace demoErr500Responses Except.ok (fun _ => 0)).calls = 2
      ∧ (fileFetchRawTrace demoErr500Responses (fun _ => 0)).calls ≤ 2 :=
  ⟨(claim_c9_reduced_budget demoErr500Responses Except.ok demoErr500Responses
      (fun _ => 0) (fun _ => 0)).2.2.1
    ⟨"NetworkError", some 500, none⟩ rfl (by decide),
   (claim_c9_reduced_budget demoErr500Responses Except.ok demoErr500Responses
      (fun _ => 0) (fun _ => 0)).2.1⟩

/-- The scheduling-loop bound holds at every state reachable from a state
within the bound: a start transition is guarded by `inFlight < limit`, a
completion only decreases `inFlight`. -/
theorem orchStep_inFlight_le {α : Type} (limit : Nat) {s0 s : OrchState α}
    (h0 : s0.inFlight ≤ limit)
    (h : Relation.ReflTransGen (OrchStep limit) s0 s) : s.inFlight ≤ limit := by
  induction h with
  | refl => exact h0
  | tail _ step ih =>
    cases step with
    | start hlt hq => simpa using hlt
    | finish hpos => simp; omega

/-- **C3.** During every Download Orchestrator run — the backup download
loop over conversation items and the file download loop over file
references, both starting with the whole batch pending and nothing in
flight — no reachable state of the scheduling loop has more than
`concurrencyLimit` in-flight worker tasks. -/
theorem claim_c3_concurrency_bound (limit : Nat)
    (convs : List ConversationItem) (refs : List FileReference)
    (sB : OrchState ConversationItem) (sF : OrchState FileReference)
    (hB : Relation.ReflTransGen (OrchStep limit) (orchInit convs) sB)
    (hF : Relation.ReflTransGen (OrchStep limit) (orchInit refs) sF) :
    sB.inFlight ≤ limit ∧ sF.inFlight ≤ limit :=
  ⟨orchStep_inFlight_le limit (Nat.zero_le limit) hB,
   orchStep_inFlight_le limit (Nat.zero_le limit) hF⟩

theorem claim_c3_witness :
    (OrchState.mk ([] : List ConversationItem) 1).inFlight ≤ 3
      ∧ (OrchState.mk [(⟨"file-bad", none, .citation⟩ : FileReference)] 1).inFlight ≤ 3 :=
  claim_c3_concurrency_bound 3 [demoConv] demoRefs ⟨[], 1⟩
    ⟨[⟨"file-bad", none, .citation⟩], 1⟩
    (Relation.ReflTransGen.single (OrchStep.start (by decide) rfl))
    (Relation.ReflTransGen.single (OrchStep.start (by decide) rfl))

theorem backupPrepass_sum (dateParseMs localTime : String → Option ℚ)
    (incremental : Bool) (convs : List ConversationItem) :
    (backupPrepass dateParseMs localTime incremental convs).1
        + (backupPrepass dateParseMs localTime incremental convs).2.length
      = convs.length := by
  induction convs with
  | nil => simp [backupPrepass]
  | cons c cs ih =>
    rw [backupPrepass]
    by_cases hc : (incremental && incrementalSkip dateParseMs localTime c) = true
    · rw [if_pos hc]
      dsimp only
      simp only [List.length_cons]
      omega
    · rw [if_neg hc]
      dsimp only
      simp only [List.length_cons]
      omega

theorem backupDownloadLoop_sum (fetchOk : String → Bool)
    (items : List ConversationItem) :
    (backupDownloadLoop fetchOk items).1 + (backupDownloadLoop fetchOk items).2.1
      = items.length := by
  induction items with
  | nil => simp [backupDownloadLoop]
  | cons c cs ih =>
    rw [backupDownloadLoop]
    by_cases hc : fetchOk c.id = true
    · rw [if_pos hc]; dsimp only; simp only [List.length_cons]; omega
    · rw [if_neg hc]; dsimp only; simp only [List.length_cons]; omega

theorem fileLoopCounts_sum (alreadyLocal fetchOk : String → Bool)
    (refs : List FileReference) :
    (fileLoopCounts alreadyLocal fetchOk refs).1
        + (fileLoopCounts alreadyLocal fetchOk refs).2.1
        + (fileLoopCounts alreadyLocal fetchOk refs).2.2.1
      = refs.length := by
  induction refs with
  | nil => simp [fileLoopCounts]
  | cons r rs ih =>
    rw [fileLoopCounts]
    by_cases h1 : alreadyLocal r.fileId = true
    · rw [if_pos h1]; dsimp only; simp only [List.length_cons]; omega
    · by_cases h2 : fetchOk r.fileId = true
      · rw [if_neg h1, if_pos h2]; dsimp only; simp only [List.length_cons]; omega
      · rw [if_neg h1, if_neg h2]; dsimp only; simp only [List.length_cons]; omega

/-- **C1.** After every Backup Engine run,
`totalConversations = downloaded + skipped + failed`; after every File
Materialization run, `total = downloaded + skipped + failed`, where `total`
counts exactly the references remaining after the pre-batch
permanent-failure exclusion (so excluded references appear in none of the
three counts). -/
theorem claim_c1_count_invariant (dateParseMs localTime : String → Option ℚ)
    (incremental : Bool) (fetchOk : String → Bool)
    (convs : List ConversationItem) (alreadyLocal fetchFileOk : String → Bool)
    (allRefs : List FileReference) (skipFileIds : List String) :
    (backupRun dateParseMs localTime incremental fetchOk convs).totalConversations
        = (backupRun dateParseMs localTime incremental fetchOk convs).downloaded
          + (backupRun dateParseMs localTime incremental fetchOk convs).skipped
          + (backupRun dateParseMs localTime incremental fetchOk convs).failed
      ∧ (downloadFiles alreadyLocal fetchFileOk allRefs skipFileIds).total
        = (downloadFiles alreadyLocal fetchFileOk allRefs skipFileIds).downloaded
          + (downloadFiles alreadyLocal fetchFileOk allRefs skipFileIds).skipped
          + (downloadFiles alreadyLocal fetchFileOk allRefs skipFileIds).failed
      ∧ (downloadFiles alreadyLocal fetchFileOk allRefs skipFileIds).total
        = (allRefs.filter (fun r => !decide (r.fileId ∈ skipFileIds))).length := by
  refine ⟨?_, ?_, ?_⟩
  · have h1 := backupPrepass_sum dateParseMs localTime incremental convs
    have h2 := backupDownloadLoop_sum fetchOk
      (backupPrepass dateParseMs localTime incremental convs).2
    simp only [backupRun]
    omega
  · have h := fileLoopCounts_sum alreadyLocal fetchFileOk
      (if skipFileIds.isEmpty then allRefs
        else allRefs.filter (fun r => !decide (r.fileId ∈ skipFileIds)))
    simp only [downloadFiles, downloadFilesLoop]
    omega
  · simp only [downloadFiles, downloadFilesLoop]
    by_cases hs : skipFileIds.isEmpty
    · have : skipFileIds = [] := List.isEmpty_iff.mp hs
      subst this
      simp
    · simp [hs]

theorem claim_c1_witness_check :
    (downloadFiles (fun _ => false) demoFetchOk demoRefs []).total = 2 := by
  decide

/-- **C2.** In incremental mode the pre-pass enqueues for download exactly
the conversations the skip test rejects, and the skip test passes if and
only if the locally stored copy has a known update timestamp, the remote
summary's update timestamp is known (after normalizing date strings to
epoch seconds), and the local timestamp is ≥ the remote one; whenever
either side is unknown the conversation is never skipped and is enqueued
for download. -/
theorem claim_c2_incremental_skip (dateParseMs localTime : String → Option ℚ)
    (convs : List ConversationItem) :
    (backupPrepass dateParseMs localTime true convs).2
        = convs.filter (fun c => !incrementalSkip dateParseMs localTime c)
      ∧ (∀ c : ConversationItem,
          incrementalSkip dateParseMs localTime c = true
            ↔ ∃ ex cu, localTime c.id = some ex
                ∧ convUpdateTime dateParseMs c.update_time = some cu
                ∧ cu ≤ ex)
      ∧ (∀ c : ConversationItem,
          localTime c.id = none ∨ convUpdateTime dateParseMs c.update_time = none →
          incrementalSkip dateParseMs localTime c = false) := by
  refine ⟨?_, ?_, ?_⟩
  · induction convs with
    | nil => simp [backupPrepass]
    | cons c cs ih =>
      rw [backupPrepass]
      by_cases hc : incrementalSkip dateParseMs localTime c = true
      · simp [hc, ih]
      · simp [hc, ih]
  · intro c
    rw [incrementalSkip]
    constructor
    · intro h
      match hex : localTime c.id, hcu : convUpdateTime dateParseMs c.update_time with
      | some ex, some cu =>
        rw [hex, hcu] at h
        exact ⟨ex, cu, rfl, rfl, by simpa using h⟩
      | some ex, none => rw [hex, hcu] at h; simp at h
      | none, some cu => rw [hex, hcu] at h; simp at h
      | none, none => rw [hex, hcu] at h; simp at h
    · rintro ⟨ex, cu, hex, hcu, hle⟩
      rw [hex, hcu]
      simpa using hle
  · intro c h
    rw [incrementalSkip]
    cases h with
    | inl h => rw [h]
    | inr h =>
      rw [h]
      match localTime c.id with
      | some ex => rfl
      | none => rfl

theorem claim_c2_witness :
    incrementalSkip demoDateParse demoLocalTime demoConv = true :=
  ((claim_c2_incremental_skip demoDateParse demoLocalTime []).2.1 demoConv).mpr
    ⟨100, 100, rfl,
      by
        simp only [demoConv, convUpdateTime, demoDateParse]
        norm_num
        intro h
        exact absurd h (by decide),
      le_refl 100⟩

theorem fileLoopCounts_congr (alreadyLocal fetchOk alreadyLocal2 fetchOk2 : String → Bool)
    (refs : List FileReference)
    (h : ∀ r ∈ refs, alreadyLocal2 r.fileId = alreadyLocal r.fileId
      ∧ fetchOk2 r.fileId = fetchOk r.fileId) :
    fileLoopCounts alreadyLocal2 fetchOk2 refs = fileLoopCounts alreadyLocal fetchOk refs := by
  induction refs with
  | nil => rfl
  | cons r rs ih =>
    have hr := h r (List.mem_cons_self r rs)
    have hrs := ih (fun q hq => h q (List.mem_cons_of_mem r hq))
    rw [fileLoopCounts, fileLoopCounts, hr.1, hr.2, hrs]

theorem fileLoopCounts_failed_sub (alreadyLocal fetchOk : String → Bool)
    (refs : List FileReference) (x : String)
    (hx : x ∈ (fileLoopCounts alreadyLocal fetchOk refs).2.2.2) :
    x ∈ refs.map (fun r => r.fileId) := by
  induction refs with
  | nil => simp [fileLoopCounts] at hx
  | cons r rs ih =>
    rw [fileLoopCounts] at hx
    by_cases h1 : alreadyLocal r.fileId = true
    · simp only [h1, if_true] at hx
      exact List.mem_cons_of_mem _ (ih hx)
    · by_cases h2 : fetchOk r.fileId = true
      · simp only [h1, h2, if_true, if_false] at hx
        exact List.mem_cons_of_mem _ (ih hx)
      · simp only [h1, h2, if_false] at hx
        rcases List.mem_cons.mp hx with h | h
        · simp [h]
        · exact List.mem_cons_of_mem _ (ih h)

/-- **C8.** A file identifier in the persisted permanent-failure set at the
start of a materialization run is excluded from the batch before any work
is scheduled: the run equals the loop over the pre-filtered batch, no
batch reference carries the identifier, the reported excluded count is the
number of batch references whose id is in the set (exactly one reference
for a given present id, the scan being deduplicated), the identifier is
absent from `failedFileIds`, `total` counts only the remaining references,
and the run never consults the local-file check or the network for an
excluded identifier (changing those oracles off the remaining batch cannot
change the result). -/
theorem claim_c8_permanent_failure_exclusion (alreadyLocal fetchOk : String → Bool)
    (allRefs : List FileReference) (skipFileIds : List String) (fid : String)
    (hid : fid ∈ skipFileIds) :
    downloadFiles alreadyLocal fetchOk allRefs skipFileIds
        = downloadFilesLoop alreadyLocal fetchOk
            (allRefs.filter (fun r => !decide (r.fileId ∈ skipFileIds)))
      ∧ (∀ r ∈ allRefs.filter (fun r => !decide (r.fileId ∈ skipFileIds)),
          r.fileId ≠ fid)
      ∧ excludedCountReported allRefs skipFileIds
        = (allRefs.filter (fun r => decide (r.fileId ∈ skipFileIds))).length
      ∧ ((allRefs.map (fun r => r.fileId)).Nodup →
          fid ∈ allRefs.map (fun r => r.fileId) →
          ((allRefs.filter (fun r => decide (r.fileId ∈ skipFileIds))).map
            (fun r => r.fileId)).count fid = 1)
      ∧ (downloadFiles alreadyLocal fetchOk allRefs skipFileIds).total
        = (allRefs.filter (fun r => !decide (r.fileId ∈ skipFileIds))).length
      ∧ fid ∉ (downloadFiles alreadyLocal fetchOk allRefs skipFileIds).failedFileIds
      ∧ (∀ alreadyLocal2 fetchOk2 : String → Bool,
          (∀ r ∈ allRefs.filter (fun r => !decide (r.fileId ∈ skipFileIds)),
            alreadyLocal2 r.fileId = alreadyLocal r.fileId
              ∧ fetchOk2 r.fileId = fetchOk r.fileId) →
          downloadFiles alreadyLocal2 fetchOk2 allRefs skipFileIds
            = downloadFiles alreadyLocal fetchOk allRefs skipFileIds) := by
  have hne : skipFileIds.isEmpty = false := by
    cases skipFileIds with
    | nil => cases hid
    | cons a l => rfl
  have hfilter : ∀ r ∈ allRefs.filter (fun r => !decide (r.fileId ∈ skipFileIds)),
      r.fileId ≠ fid := by
    intro r hr heq
    have := List.of_mem_filter hr
    simp only [Bool.not_eq_true', decide_eq_false_iff_not] at this
    exact this (heq ▸ hid)
  have hrun : downloadFiles alreadyLocal fetchOk allRefs skipFileIds
      = downloadFilesLoop alreadyLocal fetchOk
          (allRefs.filter (fun r => !decide (r.fileId ∈ skipFileIds))) := by
    rw [downloadFiles, hne]
    simp
  refine ⟨hrun, hfilter, ?_, ?_, ?_, ?_, ?_⟩
  · rw [excludedCountReported, hne]
    simp
  · intro hnd hmem
    have hsub : ((allRefs.filter (fun r => decide (r.fileId ∈ skipFileIds))).map
        (fun r => r.fileId)).Sublist (allRefs.map (fun r => r.fileId)) :=
      List.Sublist.map _ (List.filter_sublist allRefs)
    have hle := List.Sublist.count_le hsub fid
    have hone := List.nodup_iff_count_le_one.mp hnd fid
    obtain ⟨r, hr, hrid⟩ := List.mem_map.mp hmem
    have hrf : r ∈ allRefs.filter (fun r => decide (r.fileId ∈ skipFileIds)) :=
      List.mem_filter.mpr ⟨hr, by simpa [hrid] using hid⟩
    have hpos : 0 < ((allRefs.filter (fun r => decide (r.fileId ∈ skipFileIds))).map
        (fun r => r.fileId)).count fid :=
      List.count_pos_iff.mpr (List.mem_map.mpr ⟨r, hrf, hrid⟩)
    omega
  · rw [hrun]; rfl
  · rw [hrun]
    intro hmem
    have := fileLoopCounts_failed_sub alreadyLocal fetchOk
      (allRefs.filter (fun r => !decide (r.fileId ∈ skipFileIds))) fid hmem
    obtain ⟨r, hr, hrid⟩ := List.mem_map.mp this
    exact hfilter r hr hrid
  · intro alreadyLocal2 fetchOk2 hagree
    rw [downloadFiles, downloadFiles, hne]
    simp only [Bool.false_eq_true, if_false]
    rw [downloadFilesLoop, downloadFilesLoop,
      fileLoopCounts_congr alreadyLocal fetchOk alreadyLocal2 fetchOk2 _ hagree]

theorem claim_c8_witness :
    "file-bad" ∉ (downloadFiles (fun _ => false) demoFetchOk demoRefs
      ["file-bad"]).failedFileIds :=
  (claim_c8_permanent_failure_exclusion (fun _ => false) demoFetchOk demoRefs
    ["file-bad"] "file-bad" (by simp)).2.2.2.2.2.1

/-- The file ids of `insertRef refs r`: unchanged when `r.fileId` is already
present, appended otherwise. -/
theorem insertRef_ids (refs : List FileReference) (r : FileReference) :
    (insertRef refs r).map (fun q => q.fileId)
      = if r.fileId ∈ refs.map (fun q => q.fileId) then refs.map (fun q => q.fileId)
        else refs.map (fun q => q.fileId) ++ [r.fileId] := by
  rw [insertRef]
  by_cases h : r.fileId ∈ refs.map (fun q => q.fileId)
  · rw [if_pos, if_pos h]
    obtain ⟨q, hq, hqid⟩ := List.mem_map.mp h
    exact List.any_eq_true.mpr ⟨q, hq, by simp [hqid]⟩
  · rw [if_neg, if_neg h]
    · simp
    · intro hany
      obtain ⟨q, hq, hqd⟩ := List.any_eq_true.mp hany
      exact h (List.mem_map.mpr ⟨q, hq, by simpa using hqd⟩)

/-- The ids reachable after folding `insertRef` are exactly the ids of the
accumulator together with the ids of the inserted candidates. -/
theorem foldl_insertRef_mem_ids (cs : List FileReference) :
    ∀ (acc : List FileReference) (x : String),
      x ∈ (cs.foldl insertRef acc).map (fun q => q.fileId)
        ↔ x ∈ acc.map (fun q => q.fileId) ∨ x ∈ cs.map (fun q => q.fileId) := by
  induction cs with
  | nil => intro acc x; simp
  | cons c cs ih =>
    intro acc x
    rw [List.foldl_cons, ih]
    by_cases hc : c.fileId ∈ acc.map (fun q => q.fileId)
    · rw [insertRef_ids, if_pos hc]
      simp only [List.map_cons, List.mem_cons]
      constructor
      · rintro (h | h)
        · exact Or.inl h
        · exact Or.inr (Or.inr h)
      · rintro (h | h | h)
        · exact Or.inl h
        · exact Or.inl (h ▸ hc)
        · exact Or.inr h
    · rw [insertRef_ids, if_neg hc]
      simp only [List.map_cons, List.mem_cons, List.mem_append,
        List.mem_singleton]
      tauto

/-- Folding `insertRef` preserves distinctness of the accumulated ids. -/
theorem foldl_insertRef_nodup (cs : List FileReference) :
    ∀ acc : List FileReference, (acc.map (fun q => q.fileId)).Nodup →
      ((cs.foldl insertRef acc).map (fun q => q.fileId)).Nodup := by
  induction cs with
  | nil => intro acc h; simpa using h
  | cons c cs ih =>
    intro acc h
    rw [List.foldl_cons]
    refine ih (insertRef acc c) ?_
    rw [insertRef_ids]
    by_cases hc : c.fileId ∈ acc.map (fun q => q.fileId)
    · rwa [if_pos hc]
    · rw [if_neg hc]
      simp [List.nodup_append, h, hc]

/-- Every element of the fold comes from the accumulator or the candidates. -/
theorem foldl_insertRef_mem (cs : List FileReference) :
    ∀ (acc : List FileReference) (r : FileReference),
      r ∈ cs.foldl insertRef acc → r ∈ acc ∨ r ∈ cs := by
  induction cs with
  | nil => intro acc r h; exact Or.inl h
  | cons c cs ih =>
    intro acc r h
    rw [List.foldl_cons] at h
    rcases ih (insertRef acc c) r h with h' | h'
    · rw [insertRef] at h'
      by_cases hc : acc.any (fun q => decide (q.fileId = c.fileId)) = true
      · rw [if_pos hc] at h'
        exact Or.inl h'
      · rw [if_neg hc] at h'
        rcases List.mem_append.mp h' with h'' | h''
        · exact Or.inl h''
        · exact Or.inr (List.mem_cons.mpr (Or.inl (List.mem_singleton.mp h'')))
    · exact Or.inr (List.mem_cons_of_mem c h')

/-- Once an id is present in the accumulator, later insertions never add
another reference with that id. -/
theorem foldl_insertRef_filter_of_mem (id : String) (cs : List FileReference) :
    ∀ acc : List FileReference, id ∈ acc.map (fun q => q.fileId) →
      (cs.foldl insertRef acc).filter (fun q => decide (q.fileId = id))
        = acc.filter (fun q => decide (q.fileId = id)) := by
  induction cs with
  | nil => intro acc _; rfl
  | cons c cs ih =>
    intro acc hmem
    rw [List.foldl_cons, insertRef]
    by_cases hc : acc.any (fun q => decide (q.fileId = c.fileId)) = true
    · rw [if_pos hc]
      exact ih acc hmem
    · rw [if_neg hc]
      have hcne : c.fileId ≠ id := by
        intro he
        refine hc (List.any_eq_true.mpr ?_)
        obtain ⟨q, hq, hqid⟩ := List.mem_map.mp hmem
        exact ⟨q, hq, by simp [hqid, he]⟩
      have hmem' : id ∈ (acc ++ [c]).map (fun q => q.fileId) := by
        simpa using Or.inl hmem
      rw [ih (acc ++ [c]) hmem', List.filter_append]
      simp [hcne]

/-- As long as an id is absent from the accumulator, the fold keeps exactly
the first candidate carrying that id (if any). -/
theorem foldl_insertRef_filter_of_not_mem (id : String) (cs : List FileReference) :
    ∀ acc : List FileReference, id ∉ acc.map (fun q => q.fileId) →
      (cs.foldl insertRef acc).filter (fun q => decide (q.fileId = id))
        = (cs.find? (fun q => decide (q.fileId = id))).toList := by
  induction cs with
  | nil =>
    intro acc hmem
    simp only [List.foldl_nil, List.find?_nil, Option.toList_none]
    refine List.filter_eq_nil_iff.mpr ?_
    intro q hq
    simp only [decide_eq_true_eq]
    intro he
    exact hmem (List.mem_map.mpr ⟨q, hq, he⟩)
  | cons c cs ih =>
    intro acc hmem
    rw [List.foldl_cons]
    by_cases hcid : c.fileId = id
    · have hno : acc.any (fun q => decide (q.fileId = c.fileId)) ≠ true := by
        intro hany
        obtain ⟨q, hq, hqd⟩ := List.any_eq_true.mp hany
        refine hmem (List.mem_map.mpr ⟨q, hq, ?_⟩)
        rw [← hcid]
        simpa using hqd
      have hacc' : insertRef acc c = acc ++ [c] := by
        rw [insertRef, if_neg hno]
      have hmem' : id ∈ (insertRef acc c).map (fun q => q.fileId) := by
        rw [hacc']
        simp [hcid]
      rw [foldl_insertRef_filter_of_mem id cs _ hmem', hacc',
        List.filter_append, List.find?_cons_of_pos _ (by simp [hcid])]
      have : acc.filter (fun q => decide (q.fileId = id)) = [] := by
        refine List.filter_eq_nil_iff.mpr ?_
        intro q hq
        simp only [decide_eq_true_eq]
        intro he
        exact hmem (List.mem_map.mpr ⟨q, hq, he⟩)
      simp [this, hcid]
    · have hmem' : id ∉ (insertRef acc c).map (fun q => q.fileId) := by
        rw [insertRef_ids]
        by_cases hc : c.fileId ∈ acc.map (fun q => q.fileId)
        · rwa [if_pos hc]
        · rw [if_neg hc]
          simp only [List.mem_append, List.mem_singleton]
          rintro (h | h)
          · exact hmem h
          · exact hcid h.symm
      rw [ih _ hmem', List.find?_cons_of_neg _ (by simp [hcid])]

/-- Pushing candidates through `insertRef` one at a time equals folding
`insertRef` over the `filterMap` of the candidate function. -/
theorem foldl_insert_filterMap {β : Type} (f : β → Option FileReference)
    (l : List β) :
    ∀ acc : List FileReference,
      l.foldl (fun a p => match f p with | some r => insertRef a r | none => a) acc
        = (l.filterMap f).foldl insertRef acc := by
  induction l with
  | nil => intro acc; rfl
  | cons b bs ih =>
    intro acc
    rw [List.foldl_cons, List.filterMap_cons]
    cases hf : f b with
    | none => dsimp only; exact ih acc
    | some r => dsimp only; rw [List.foldl_cons]; exact ih (insertRef acc r)

/-- The three scans of one node are the fold of `insertRef` over that node's
candidate list. -/
theorem scanNode_eq (refs : List FileReference) (n : MappingNode) :
    scanNode refs n = (nodeCandidates n).foldl insertRef refs := by
  rcases n with ⟨msg⟩
  cases msg with
  | none => rfl
  | some m =>
    unfold scanNode nodeCandidates messageCandidates
    dsimp only
    cases hc : m.content with
    | none =>
      cases hm : m.metadata with
      | none => simp
      | some md =>
        simp only [List.nil_append, List.foldl_append, foldl_insert_filterMap]
    | some cnt =>
      cases hm : m.metadata with
      | none =>
        simp only [List.append_nil, List.foldl_append, foldl_insert_filterMap,
          List.foldl_nil]
      | some md =>
        simp only [List.foldl_append, foldl_insert_filterMap]

/-- `extractFileReferences` is the deduplicating fold over the candidate
occurrences in scan order. -/
theorem extractFileReferences_eq_foldl (d : ConversationDetail) :
    extractFileReferences d = (extractCandidates d).foldl insertRef [] := by
  rw [extractFileReferences, extractCandidates]
  generalize ([] : List FileReference) = acc
  induction d.mapping generalizing acc with
  | nil => rfl
  | cons n ns ih =>
    rw [List.foldl_cons, List.flatMap_cons, List.foldl_append, scanNode_eq]
    exact ih ((nodeCandidates n).foldl insertRef acc)

/-- **C7.** Whenever the same file identifier occurs two or more times among
the scanned occurrences of a conversation (e.g. via two different provenance
paths), `extractFileReferences` returns exactly one `FileReference` with
that identifier, and it is the first occurrence in scan order — carrying
that occurrence's provenance and filename; all later duplicates are
discarded. -/
theorem claim_c7_dedup_first_wins (d : ConversationDetail) (id : String)
    (h : 2 ≤ ((extractCandidates d).filter
      (fun r => decide (r.fileId = id))).length) :
    ∃ r, (extractCandidates d).find? (fun r => decide (r.fileId = id)) = some r
      ∧ (extractFileReferences d).filter (fun r => decide (r.fileId = id)) = [r] := by
  cases hr : (extractCandidates d).find? (fun r => decide (r.fileId = id)) with
  | none =>
    exfalso
    have hnone := List.find?_eq_none.mp hr
    have hnil : (extractCandidates d).filter
        (fun r => decide (r.fileId = id)) = [] :=
      List.filter_eq_nil_iff.mpr (fun q hq => by simpa using hnone q hq)
    rw [hnil] at h
    simp at h
  | some r =>
    refine ⟨r, rfl, ?_⟩
    rw [extractFileReferences_eq_foldl,
      foldl_insertRef_filter_of_not_mem id (extractCandidates d) [] (by simp), hr]
    rfl

theorem claim_c7_witness :
    ∃ r, (extractCandidates demoDetail).find?
        (fun r => decide (r.fileId = "file-AAA")) = some r
      ∧ (extractFileReferences demoDetail).filter
          (fun r => decide (r.fileId = "file-AAA")) = [r] :=
  claim_c7_dedup_first_wins demoDetail "file-AAA" (by decide)

theorem imageCandidate_fileId_ne (part : MsgPart) (r : FileReference)
    (h : imageCandidate part = some r) : r.fileId ≠ "" := by
  rcases part with s | _ | ⟨ct, ptr⟩
  · exact absurd h (by simp [imageCandidate])
  · exact absurd h (by simp [imageCandidate])
  · rw [imageCandidate.eq_def] at h
    dsimp only at h
    by_cases h1 : ct = some "image_asset_pointer"
    · rw [if_pos h1] at h
      cases ptr with
      | none => exact absurd h (by simp)
      | some pstr =>
        dsimp only at h
        by_cases h2 : pstr = ""
        · rw [if_neg (not_not_intro h2)] at h
          exact absurd h (by simp)
        · rw [if_pos h2] at h
          cases hext : extractFileIdFromPointer pstr with
          | none => rw [hext] at h; exact absurd h (by simp)
          | some fid =>
            rw [hext] at h
            dsimp only at h
            by_cases h3 : fid = ""
            · rw [if_neg (not_not_intro h3)] at h
              exact absurd h (by simp)
            · rw [if_pos h3] at h
              cases h
              exact h3
    · rw [if_neg h1] at h
      exact absurd h (by simp)

theorem attachmentCandidate_fileId_ne (a : Attachment) (r : FileReference)
    (h : attachmentCandidate a = some r) : r.fileId ≠ "" := by
  rw [attachmentCandidate] at h
  cases ha : a.id with
  | none => rw [ha] at h; exact absurd h (by simp)
  | some id =>
    rw [ha] at h
    dsimp only at h
    by_cases h2 : id = ""
    · rw [if_neg (not_not_intro h2)] at h
      exact absurd h (by simp)
    · rw [if_pos h2] at h
      cases h
      exact h2

theorem citationCandidate_fileId_ne (c : Citation) (r : FileReference)
    (h : citationCandidate c = some r) : r.fileId ≠ "" := by
  rw [citationCandidate] at h
  cases hf : (match c.metadata with | some m => m.file_id | none => none) <|> c.file_id with
  | none => rw [hf] at h; exact absurd h (by simp)
  | some fid =>
    rw [hf] at h
    dsimp only at h
    by_cases h3 : fid = ""
    · rw [if_neg (not_not_intro h3)] at h
      exact absurd h (by simp)
    · rw [if_pos h3] at h
      cases h
      exact h3

/-- Every scanned candidate carries a nonempty file id (each scan guards on
JS truthiness of the id). -/
theorem extractCandidates_fileId_ne (d : ConversationDetail) (r : FileReference)
    (hr : r ∈ extractCandidates d) : r.fileId ≠ "" := by
  rw [extractCandidates] at hr
  obtain ⟨n, _, hn⟩ := List.mem_flatMap.mp hr
  rw [nodeCandidates] at hn
  rcases hmsg : n.message with _ | m
  · rw [hmsg] at hn; cases hn
  · rw [hmsg] at hn
    unfold messageCandidates at hn
    rcases List.mem_append.mp hn with hn' | hn'
    · rcases List.mem_append.mp hn' with hn'' | hn''
      · rcases hc : m.content with _ | c
        · rw [hc] at hn''; cases hn''
        · rw [hc] at hn''
          obtain ⟨x, _, hx⟩ := List.mem_filterMap.mp hn''
          exact imageCandidate_fileId_ne x r hx
      · rcases hm : m.metadata with _ | md
        · rw [hm] at hn''; cases hn''
        · rw [hm] at hn''
          obtain ⟨x, _, hx⟩ := List.mem_filterMap.mp hn''
          exact attachmentCandidate_fileId_ne x r hx
    · rcases hm : m.metadata with _ | md
      · rw [hm] at hn'; cases hn'
      · rw [hm] at hn'
        obtain ⟨x, _, hx⟩ := List.mem_filterMap.mp hn'
        exact citationCandidate_fileId_ne x r hx

/-- **C10.** For every conversation, `extractFileReferences` returns
pairwise-distinct, nonempty file ids; and an image asset pointer that does
not begin with the `file-service://` scheme, or whose suffix after that
scheme is empty, contributes no candidate reference. -/
theorem claim_c10_ids_invariant (d : ConversationDetail) (p : String) :
    ((extractFileReferences d).map (fun r => r.fileId)).Nodup
      ∧ (∀ r ∈ extractFileReferences d, r.fileId ≠ "")
      ∧ ((strStartsWith p fileServiceScheme = false ∨ p = fileServiceScheme) →
          imageCandidate (.obj (some "image_asset_pointer") (some p)) = none) := by
  refine ⟨?_, ?_, ?_⟩
  · rw [extractFileReferences_eq_foldl]
    exact foldl_insertRef_nodup (extractCandidates d) [] (by simp)
  · intro r hr
    rw [extractFileReferences_eq_foldl] at hr
    rcases foldl_insertRef_mem (extractCandidates d) [] r hr with h | h
    · cases h
    · exact extractCandidates_fileId_ne d r h
  · intro hp
    by_cases hpe : p = ""
    · simp [imageCandidate, hpe]
    · rcases hp with hns | hsc
      · simp [imageCandidate, hpe, extractFileIdFromPointer, hns]
      · subst hsc
        decide

theorem claim_c10_witness :
    imageCandidate (.obj (some "image_asset_pointer") (some "https://x/y.png"))
      = none :=
  (claim_c10_ids_invariant demoDetail "https://x/y.png").2.2 (Or.inl (by decide))

end ChatGPTExporter
